import Mathlib

/-!
Shallow embedding of the branch-topology core of robota-core
(src/robota_core/logic.py, src/robota_core/commit.py and
src/robota_core/commit_visualisation/commit_visualisation.py), together
with theorems settling the specification claims about it.

Modelling conventions:
* Python objects become structures carrying exactly the fields the
  embedded functions read (Commit equality in the source compares ids
  only, so commitEq below compares ids only).
* datetime values become integers; only their ordering is used.
* fallible or possibly non-terminating Python code returns PyResult:
  a normal return, a raised exception, or divergence.  while-loops whose
  termination is not structural are run on fuel; in every such loop the
  successor state is a deterministic function of the current state drawn
  from a finite set, so a run that has not finished after (size + 2)
  steps has revisited a state and loops forever.  Fuel exhaustion is
  therefore reported as divergence, and every terminating run of the
  Python loop is reproduced exactly.
-/

set_option maxRecDepth 8192

namespace Robota

/-- Commit record: the embedded functions read only the id and the
ordered parent ids (robota_core/commit.py, class Commit). -/
structure Commit where
  id : String
  parent_ids : List String
deriving DecidableEq, Repr

/-- Tag record: a named pointer to a commit (robota_core/commit.py, class Tag). -/
structure Tag where
  name : String
  commit_id : String
deriving DecidableEq, Repr

/-- Event record: a ref-lifecycle event (robota_core/repository.py, class Event).
The date is an integer timestamp; only comparisons are used. -/
structure Event where
  date : Int
  type : String
  ref_type : String
  ref_name : String
  commit_id : String
deriving DecidableEq, Repr

/-- A Python exception relevant to the embedded code. -/
inductive PyErr where
  | assertionError (msg : String)
  | indexError
  | valueError
deriving DecidableEq, Repr

/-- Outcome of running a piece of Python code: a normal return value, a
raised exception, or non-termination. -/
inductive PyResult (α : Type) where
  | ok (a : α)
  | exn (e : PyErr)
  | diverge
deriving DecidableEq, Repr

/-- Does a PyResult hold a normal return value? -/
def PyResult.isOk {α : Type} : PyResult α → Bool
  | .ok _ => true
  | _ => false

/-- Commit equality as implemented by Commit eq in the source:
comparison is by id only. -/
def commitEq (a b : Commit) : Bool := a.id == b.id

/-- Python membership test c in commits, which uses Commit eq (id equality). -/
def containsCommit (commits : List Commit) (c : Commit) : Bool :=
  commits.any (fun x => commitEq c x)

/-- Index of the first element satisfying p, as Python list.index finds it
(and as the enumerate-with-break loop in get_merge_commit finds it). -/
def pyFindIdx {α : Type} (p : α → Bool) : List α → Option Nat
  | [] => none
  | x :: xs => if p x then some 0 else (pyFindIdx p xs).map (· + 1)

/-! robota_core/logic.py -/

/-- Message of the AssertionError raised on the shared-oldest-commit
precondition violation in get_first_feature_commit. -/
def precondition_violation_msg : String :=
  "The oldest commit in each list must be common to both branches."

/-- Message of the AssertionError raised when an unmerged feature branch
has no ancestor link to the base branch. -/
def structural_error_msg : String :=
  "Feature branch not connected to master branch."

/-- find_commit_in_list from logic.py: first commit with the given id, else None. -/
def find_commit_in_list (commit_id : String) (commits : List Commit) : Option Commit :=
  commits.find? (fun c => c.id == commit_id)

/-- Body of the while-loop of find_feature_parent (logic.py).  One fuel unit
per iteration; the chase over base_commits is deterministic (find_commit_in_list
returns the first match), so fuel (length + 2) exhausts only on a true cycle,
in which case the Python loop runs forever. -/
def findFeatureParentAux (feature_commit : Commit) (base_commits : List Commit) :
    Nat → Commit → PyResult Bool
  | 0, _ => .diverge
  | fuel + 1, base_commit =>
    let feature_parent : Option String := feature_commit.parent_ids.head?
    let hit : Bool :=
      (match feature_parent with
       | some p => base_commit.parent_ids.contains p
       | none => false) && !(commitEq base_commit feature_commit)
    if hit then .ok true
    else
      match base_commit.parent_ids.head? with
      | none => .ok false
      | some p0 =>
        match find_commit_in_list p0 base_commits with
        | none => .ok false
        | some next => findFeatureParentAux feature_commit base_commits fuel next

/-- find_feature_parent from logic.py.  Accessing base_commits[0] on an empty
list raises IndexError. -/
def find_feature_parent (feature_commit : Commit) (base_commits : List Commit) :
    PyResult Bool :=
  match base_commits.head? with
  | none => .exn .indexError
  | some b0 => findFeatureParentAux feature_commit base_commits (base_commits.length + 2) b0

/-- First loop of get_first_feature_commit (unmerged-branch case): scan the
feature commits newest to oldest, return the first whose first parent id is in
base_commits; commit.parent_ids[0] on a parentless commit raises IndexError;
exhausting the list raises the structural AssertionError. -/
def unmergedScan (base_commits : List Commit) : List Commit → PyResult (Option Commit)
  | [] => .exn (.assertionError structural_error_msg)
  | c :: rest =>
    match c.parent_ids.head? with
    | none => .exn .indexError
    | some p0 =>
      if containsCommit base_commits (Commit.mk p0 []) then .ok (some c)
      else unmergedScan base_commits rest

/-- Second loop of get_first_feature_commit (integrated-branch case): return the
first feature commit for which find_feature_parent holds; if none, return
feature_commits[-2], which raises IndexError when the list has fewer than two
entries. -/
def mergedScan (base_commits feature_commits : List Commit) :
    List Commit → PyResult (Option Commit)
  | [] =>
    match feature_commits.dropLast.getLast? with
    | some c => .ok (some c)
    | none => .exn .indexError
  | c :: rest =>
    match find_feature_parent c base_commits with
    | .ok true => .ok (some c)
    | .ok false => mergedScan base_commits feature_commits rest
    | .exn e => .exn e
    | .diverge => .diverge

/-- get_first_feature_commit from logic.py, translated clause by clause:
empty feature list returns None; feature_commits[-1] is read first, then
base_commits[-1] (IndexError on an empty base list); mismatched oldest ids
raise the precondition AssertionError; an unmerged tip routes to the
parent-id scan, otherwise the find_feature_parent scan runs with the
feature_commits[-2] fast-forward fallback. -/
def get_first_feature_commit (base_commits feature_commits : List Commit) :
    PyResult (Option Commit) :=
  match feature_commits.getLast? with
  | none => .ok none
  | some f_last =>
    match base_commits.getLast? with
    | none => .exn .indexError
    | some b_last =>
      if !(commitEq f_last b_last) then .exn (.assertionError precondition_violation_msg)
      else
        match feature_commits.head? with
        | none => .exn .indexError
        | some tip =>
          if !(containsCommit base_commits tip) then unmergedScan base_commits feature_commits
          else mergedScan base_commits feature_commits feature_commits

/-! robota_core/commit.py : get_merge_commit and get_tags_at_date -/

/-- Test used in get_merge_commit: the commit has more than one parent and its
second parent is the feature tip (short-circuit conjunction as in the source). -/
def isSecondParentMerge (feature_tip : Commit) (c : Commit) : Bool :=
  match c.parent_ids with
  | _ :: p1 :: _ => feature_tip.id == p1
  | _ => false

/-- get_merge_commit from commit.py: None on an empty master list; locate the
feature tip by Commit equality; scan the more recent master commits oldest to
newest for an explicit merge of the tip; otherwise the tip itself. -/
def get_merge_commit (feature_tip : Commit) (master_commits : List Commit) :
    Option Commit :=
  if master_commits.isEmpty then none
  else
    match pyFindIdx (fun c => commitEq c feature_tip) master_commits with
    | none => none
    | some i =>
      match ((master_commits.take i).reverse).find? (isSecondParentMerge feature_tip) with
      | some c => some c
      | none => some feature_tip

/-- The while-loop with del in get_tags_at_date: the pointer is not advanced
after a deletion, so every entry matching the commit id and name is removed. -/
def deleteMatching (tag_name tag_commit : String) : List Tag → List Tag
  | [] => []
  | t :: ts =>
    if t.commit_id == tag_commit && t.name == tag_name then
      deleteMatching tag_name tag_commit ts
    else
      t :: deleteMatching tag_name tag_commit ts

/-- Body of the event loop of get_tags_at_date, one event at a time. -/
def applyEvent (date : Int) (tags : List Tag) (event : Event) : List Tag :=
  if event.date > date then
    if event.type == "deleted" then
      if event.ref_type == "tag" then
        tags ++ [Tag.mk event.ref_name event.commit_id]
      else tags
    else if event.type == "pushed to" || event.type == "pushed new" then
      if event.ref_type == "tag" then
        deleteMatching event.ref_name event.commit_id tags
      else tags
    else tags
  else tags

/-- get_tags_at_date from commit.py: replay the events over a working copy of
the tag list (the deep copy becomes value semantics here). -/
def get_tags_at_date (date : Int) (tags : List Tag) (events : List Event) : List Tag :=
  events.foldl (applyEvent date) tags

/-! robota_core/commit_visualisation/commit_visualisation.py -/

/-- identify_merge_commit_parents: append each parent list of length greater
than one, preserving order (the source appends the whole list). -/
def identify_merge_commit_parents (commit_parents : List (List String)) :
    List (List String) :=
  commit_parents.foldl
    (fun acc parents => if parents.length > 1 then acc ++ [parents] else acc) []

/-- The shared while-loop of catch_empty_graph and get_branch_commits: while
the current id is in all_commits, load its parent list (IndexError if
commit_parents is too short), take its first parent (IndexError if empty),
append it and continue.  The chase is deterministic (list.index returns the
first occurrence), so fuel (length + 2) exhausts only on a true cycle, where
the Python loop runs forever. -/
def walkChain (all_commits : List String) (commit_parents : List (List String)) :
    Nat → String → List String → PyResult (List String)
  | 0, _, _ => .diverge
  | fuel + 1, parent_id, commit_list =>
    match pyFindIdx (fun c => c == parent_id) all_commits with
    | none => .ok commit_list
    | some parent_index =>
      match commit_parents.get? parent_index with
      | none => .exn .indexError
      | some parents =>
        match parents.head? with
        | none => .exn .indexError
        | some p0 => walkChain all_commits commit_parents fuel p0 (commit_list ++ [p0])

/-- catch_empty_graph: when no path was produced, start from all_commits[-1]
(IndexError on an empty snapshot), walk the chain and append the reversed
list as the single synthesized path. -/
def catch_empty_graph (nodes : List (List String)) (all_commits : List String)
    (commit_parents : List (List String)) : PyResult (List (List String)) :=
  if nodes.isEmpty then
    match all_commits.getLast? with
    | none => .exn .indexError
    | some parent_id =>
      match walkChain all_commits commit_parents (all_commits.length + 2)
          parent_id [parent_id] with
      | .ok commit_list => .ok (nodes ++ [commit_list.reverse])
      | .exn e => .exn e
      | .diverge => .diverge
  else .ok nodes

/-- Inner body of get_branch_commits for one element of one merge-parent pair:
locate the merge commit whose parent list equals the pair (ValueError if
absent, as list.index raises), read the child id (IndexError if all_commits is
too short), then walk the chain from the pair element. -/
def branchFromParent (all_commits : List String) (commit_parents : List (List String))
    (parent_pair : List String) (parent_id : String) : PyResult (List String) :=
  match pyFindIdx (fun p => p == parent_pair) commit_parents with
  | none => .exn .valueError
  | some child_index =>
    match all_commits.get? child_index with
    | none => .exn .indexError
    | some child_id =>
      walkChain all_commits commit_parents (all_commits.length + 2)
        parent_id [child_id, parent_id]

/-- Loop of get_branch_commits over the two elements of one merge-parent pair,
appending each reversed walk to the accumulated nodes. -/
def branchesForPair (all_commits : List String) (commit_parents : List (List String))
    (parent_pair : List String) :
    List String → List (List String) → PyResult (List (List String))
  | [], nodes => .ok nodes
  | parent_id :: rest, nodes =>
    match branchFromParent all_commits commit_parents parent_pair parent_id with
    | .ok commit_list =>
      branchesForPair all_commits commit_parents parent_pair rest
        (nodes ++ [commit_list.reverse])
    | .exn e => .exn e
    | .diverge => .diverge

/-- Outer loop of get_branch_commits over all merge-parent pairs. -/
def branchesLoop (all_commits : List String) (commit_parents : List (List String)) :
    List (List String) → List (List String) → PyResult (List (List String))
  | [], nodes => .ok nodes
  | pair :: pairs, nodes =>
    match branchesForPair all_commits commit_parents pair pair nodes with
    | .ok nodes2 => branchesLoop all_commits commit_parents pairs nodes2
    | .exn e => .exn e
    | .diverge => .diverge

/-- get_branch_commits: one reversed first-parent walk per element of each
merge-parent pair. -/
def get_branch_commits (all_commits : List String) (commit_parents : List (List String))
    (merge_commit_parents : List (List String)) : PyResult (List (List String)) :=
  branchesLoop all_commits commit_parents merge_commit_parents []

/-- The while-loop of add_unmerged_branches: take the first parent of the
current parent list, append it, and continue while that parent is in
all_commits (reading its parent list may raise IndexError); an empty parent
list ends the loop normally.  Fuel as in walkChain. -/
def refWalk (all_commits : List String) (commit_parents : List (List String)) :
    Nat → List String → List String → PyResult (List String)
  | 0, _, _ => .diverge
  | _ + 1, [], branch => .ok branch
  | fuel + 1, parent_id :: _, branch =>
    match pyFindIdx (fun c => c == parent_id) all_commits with
    | none => .ok (branch ++ [parent_id])
    | some parent_index =>
      match commit_parents.get? parent_index with
      | none => .exn .indexError
      | some parents2 =>
        refWalk all_commits commit_parents fuel parents2 (branch ++ [parent_id])

/-- Loop of add_unmerged_branches over the refs (a dict becomes an ordered
association list): a ref whose target never occurs as a parent and is in
all_commits contributes one reversed walk starting at its target. -/
def addUnmergedLoop (all_commits : List String) (commit_parents : List (List String))
    (flat_parents : List String) :
    List (String × String) → List (List String) → PyResult (List (List String))
  | [], nodes => .ok nodes
  | (_, ref_commit) :: rest, nodes =>
    if flat_parents.contains ref_commit then
      addUnmergedLoop all_commits commit_parents flat_parents rest nodes
    else
      match pyFindIdx (fun c => c == ref_commit) all_commits with
      | none => addUnmergedLoop all_commits commit_parents flat_parents rest nodes
      | some parent_index =>
        match commit_parents.get? parent_index with
        | none => .exn .indexError
        | some parents =>
          match refWalk all_commits commit_parents (all_commits.length + 2)
              parents [ref_commit] with
          | .ok branch =>
            addUnmergedLoop all_commits commit_parents flat_parents rest
              (nodes ++ [branch.reverse])
          | .exn e => .exn e
          | .diverge => .diverge

/-- add_unmerged_branches from commit_visualisation.py. -/
def add_unmerged_branches (refs : List (String × String)) (all_commits : List String)
    (commit_parents : List (List String)) (nodes : List (List String)) :
    PyResult (List (List String)) :=
  addUnmergedLoop all_commits commit_parents commit_parents.flatten refs nodes

/-- process_commits from commit_visualisation.py: merge detection, merge-pair
paths, unmerged-ref paths, then the degenerate fallback. -/
def process_commits (all_commits : List String) (commit_parents : List (List String))
    (refs : List (String × String)) : PyResult (List (List String)) :=
  match get_branch_commits all_commits commit_parents
      (identify_merge_commit_parents commit_parents) with
  | .ok nodes1 =>
    match add_unmerged_branches refs all_commits commit_parents nodes1 with
    | .ok nodes2 => catch_empty_graph nodes2 all_commits commit_parents
    | .exn e => .exn e
    | .diverge => .diverge
  | .exn e => .exn e
  | .diverge => .diverge

/-! Specification-side definitions, written from the spec's words, for
comparison with the source-side definitions above -/

/-- Merge-point attributor as worded by the spec (section 4.5): locate the
feature tip's index among the base commit ids; if absent (or the list is
empty) the branch is not merged; otherwise scan the base commits more recent
than that index, oldest to newest, for the first commit with more than one
parent whose second parent id equals the tip's id; if none exists, the
integration was a fast-forward and the result is the tip itself. -/
def merge_point_spec (feature_tip : Commit) (base_commits : List Commit) :
    Option Commit :=
  match pyFindIdx (fun s => s == feature_tip.id) (base_commits.map Commit.id) with
  | none => none
  | some i =>
    match ((base_commits.take i).reverse).find?
        (fun c => decide (1 < c.parent_ids.length)
          && (c.parent_ids.get? 1 == some feature_tip.id)) with
    | some c => some c
    | none => some feature_tip

/-- Whether the first-listed parent id of a commit is present among the base
commit ids (false for a parentless commit); the scan predicate of the
unmerged-branch clause as the spec words it. -/
def first_parent_in_base (base_commits : List Commit) (c : Commit) : Bool :=
  match c.parent_ids with
  | p :: _ => (base_commits.map Commit.id).contains p
  | [] => false

/-- The condition on which the unmerged-branch scan stops at a commit: its
first-listed parent id is in the base list, or it has no parents at all (in
which case the source raises IndexError at commit.parent_ids[0]). -/
def scanStop (base_commits : List Commit) (c : Commit) : Bool :=
  first_parent_in_base base_commits c || c.parent_ids.isEmpty

/-! Helper lemmas -/

/-- The stationary-pointer delete loop removes every matching entry: it is
list filtering by the negated match condition. -/
theorem deleteMatching_eq_filter (tag_name tag_commit : String) (l : List Tag) :
    deleteMatching tag_name tag_commit l
      = l.filter (fun t => !(t.commit_id == tag_commit && t.name == tag_name)) := by
  induction l with
  | nil => rfl
  | cons t ts ih =>
    by_cases h : (t.commit_id == tag_commit && t.name == tag_name) = true
    · simp only [deleteMatching, h, if_true, List.filter_cons, ih]
      simp
    · have hb : (t.commit_id == tag_commit && t.name == tag_name) = false :=
        Bool.eq_false_iff.mpr h
      simp only [deleteMatching, hb, Bool.false_eq_true, if_false,
        List.filter_cons, ih]
      simp

/-- No tag surviving the delete loop matches both the commit id and the name. -/
theorem deleteMatching_not_mem (tag_name tag_commit : String) (l : List Tag) :
    ∀ t ∈ deleteMatching tag_name tag_commit l,
      ¬(t.name = tag_name ∧ t.commit_id = tag_commit) := by
  intro t ht hcontra
  rw [deleteMatching_eq_filter] at ht
  have := (List.mem_filter.mp ht).2
  simp [hcontra.1, hcontra.2] at this

/-- Folding the append-if loop of identify_merge_commit_parents is filtering. -/
theorem identify_foldl_eq_filter (l : List (List String)) (acc : List (List String)) :
    l.foldl (fun a parents => if parents.length > 1 then a ++ [parents] else a) acc
      = acc ++ l.filter (fun parents => parents.length > 1) := by
  induction l generalizing acc with
  | nil => simp
  | cons x xs ih =>
    by_cases h : x.length > 1
    · simp [h, ih]
    · simp [h, ih]

/-- Evaluation of applyEvent on a deleted tag event dated after the query date. -/
theorem applyEvent_deleted (date d : Int) (tags : List Tag) (name cid : String)
    (hd : d > date) :
    applyEvent date tags (Event.mk d "deleted" "tag" name cid)
      = tags ++ [Tag.mk name cid] := by
  simp [applyEvent, hd]

/-- Evaluation of applyEvent on a pushed-new or pushed-to tag event dated
after the query date. -/
theorem applyEvent_pushed (date d : Int) (tags : List Tag) (name cid ptype : String)
    (hd : d > date) (hp : ptype = "pushed new" ∨ ptype = "pushed to") :
    applyEvent date tags (Event.mk d ptype "tag" name cid)
      = deleteMatching name cid tags := by
  rcases hp with h | h <;> subst h <;> simp [applyEvent, hd]

/-- A successful pyFindIdx exhibits an element satisfying the predicate. -/
theorem pyFindIdx_some_exists {α : Type} (p : α → Bool) (l : List α) (i : Nat)
    (h : pyFindIdx p l = some i) : ∃ x ∈ l, p x = true := by
  induction l generalizing i with
  | nil => simp [pyFindIdx] at h
  | cons x xs ih =>
    by_cases hx : p x = true
    · exact ⟨x, List.mem_cons_self x xs, hx⟩
    · simp only [pyFindIdx, hx, if_neg, Bool.false_eq_true, not_false_iff, if_false] at h
      obtain ⟨j, hj, -⟩ := Option.map_eq_some'.mp h
      obtain ⟨y, hy, hpy⟩ := ih j hj
      exact ⟨y, List.mem_cons_of_mem x hy, hpy⟩

/-- A successful equality search proves membership of the sought element. -/
theorem pyFindIdx_beq_mem (a : String) (l : List String) (i : Nat)
    (h : pyFindIdx (fun x => x == a) l = some i) : a ∈ l := by
  obtain ⟨x, hx, hpx⟩ := pyFindIdx_some_exists _ l i h
  exact (eq_of_beq hpx) ▸ hx

/-- A list whose getLast? is some a contains a. -/
theorem mem_of_getLast?_some {α : Type} (l : List α) (a : α)
    (h : l.getLast? = some a) : a ∈ l := by
  induction l with
  | nil => simp at h
  | cons x xs ih =>
    cases xs with
    | nil => simp [List.getLast?] at h; simp [h]
    | cons y ys =>
      rw [List.getLast?_cons_cons] at h
      exact List.mem_cons_of_mem x (ih h)

/-! Claim C1 -/

/-- C1 counterexample: with a pushed-new and a deleted event for the same
(ref_name, commit_id) pair, both dated after the query date, the pair is
present in the result when the push event is processed first, and the result
differs between the two processing orders — refuting both the claimed absence
and the claimed order independence. -/
theorem C1_counterexample :
    Tag.mk "t" "c" ∈ get_tags_at_date 0 []
      [Event.mk 2 "pushed new" "tag" "t" "c", Event.mk 1 "deleted" "tag" "t" "c"]
    ∧ get_tags_at_date 0 []
        [Event.mk 2 "pushed new" "tag" "t" "c", Event.mk 1 "deleted" "tag" "t" "c"]
      ≠ get_tags_at_date 0 []
        [Event.mk 1 "deleted" "tag" "t" "c", Event.mk 2 "pushed new" "tag" "t" "c"] := by
  decide

/-- C1 amended: the result of get_tags_at_date on a same-pair push/delete event
couple dated after the query date depends on the processing order: the pair is
absent when the delete event precedes the push event in the list, and present
(appended by the delete) when the push event precedes the delete event. -/
theorem C1_amended_order_dependence (date d1 d2 : Int) (tags : List Tag)
    (name cid ptype : String) (h1 : d1 > date) (h2 : d2 > date)
    (hp : ptype = "pushed new" ∨ ptype = "pushed to") :
    (∀ t ∈ get_tags_at_date date tags
        [Event.mk d1 "deleted" "tag" name cid, Event.mk d2 ptype "tag" name cid],
      ¬(t.name = name ∧ t.commit_id = cid))
    ∧ Tag.mk name cid ∈ get_tags_at_date date tags
        [Event.mk d2 ptype "tag" name cid, Event.mk d1 "deleted" "tag" name cid] := by
  constructor
  · intro t ht
    simp only [get_tags_at_date, List.foldl_cons, List.foldl_nil,
      applyEvent_deleted date d1 tags name cid h1,
      applyEvent_pushed date d2 _ name cid ptype h2 hp] at ht
    exact deleteMatching_not_mem name cid _ t ht
  · simp only [get_tags_at_date, List.foldl_cons, List.foldl_nil,
      applyEvent_pushed date d2 tags name cid ptype h2 hp,
      applyEvent_deleted date d1 _ name cid h1]
    simp

/-- C1 witness: the amended order dependence at a concrete input. -/
theorem C1_amended_order_dependence_witness :
    Tag.mk "t" "c" ∈ get_tags_at_date 0 []
      [Event.mk 2 "pushed new" "tag" "t" "c", Event.mk 1 "deleted" "tag" "t" "c"] :=
  (C1_amended_order_dependence 0 1 2 [] "t" "c" "pushed new"
    (by decide) (by decide) (Or.inl rfl)).2

/-! Claim C9 -/

/-- C9 counterexample: a pushed-new tag event dated after the query date
removes both duplicate entries of the matching pair, not just the first one,
so the result is empty rather than the single leftover entry the claim
predicts. -/
theorem C9_counterexample :
    get_tags_at_date 0 [Tag.mk "t" "c", Tag.mk "t" "c"]
      [Event.mk 1 "pushed new" "tag" "t" "c"] = []
    ∧ ([] : List Tag) ≠ [Tag.mk "t" "c"] := by
  decide

/-- C9 amended: a pushed-new or pushed-to tag event dated after the query date
removes every entry matching the (name, commit_id) pair from the working copy
(the delete loop does not advance its pointer after a removal), and a deleted
tag event dated after the query date appends one synthetic tag entry. -/
theorem C9_amended_removes_all_matches (date d : Int) (tags : List Tag)
    (name cid etype : String) (hd : d > date) :
    ((etype = "pushed new" ∨ etype = "pushed to") →
      get_tags_at_date date tags [Event.mk d etype "tag" name cid]
        = tags.filter (fun t => !(t.commit_id == cid && t.name == name)))
    ∧ get_tags_at_date date tags [Event.mk d "deleted" "tag" name cid]
        = tags ++ [Tag.mk name cid] := by
  constructor
  · intro hp
    simp only [get_tags_at_date, List.foldl_cons, List.foldl_nil,
      applyEvent_pushed date d tags name cid etype hd hp]
    exact deleteMatching_eq_filter name cid tags
  · simp only [get_tags_at_date, List.foldl_cons, List.foldl_nil,
      applyEvent_deleted date d tags name cid hd]

/-- C9 witness: with duplicate entries of the pair, the single push event
empties the list. -/
theorem C9_amended_removes_all_matches_witness :
    get_tags_at_date 0 [Tag.mk "t" "c", Tag.mk "t" "c"]
      [Event.mk 1 "pushed new" "tag" "t" "c"]
      = List.filter (fun t => !(t.commit_id == "c" && t.name == "t"))
          [Tag.mk "t" "c", Tag.mk "t" "c"] :=
  (C9_amended_removes_all_matches 0 1 [Tag.mk "t" "c", Tag.mk "t" "c"] "t" "c"
    "pushed new" (by decide)).1 (Or.inl rfl)

/-! Claim C6 -/

/-- C6 counterexample: for a three-parent (octopus) merge the detector emits
the whole parent list, not the pair of the first two parents. -/
theorem C6_counterexample :
    identify_merge_commit_parents [["a", "b", "c"]] = [["a", "b", "c"]]
    ∧ identify_merge_commit_parents [["a", "b", "c"]] ≠ [["a", "b"]] := by
  decide

/-- C6 amended: the merge detector emits the full parent list (which equals
the pair of the first two parents exactly when the list has two entries) for
each parent list of length greater than one, preserving input order and
emitting nothing for shorter lists; it is total and maps the empty list to
the empty list. -/
theorem C6_amended_full_parent_lists (commit_parents : List (List String)) :
    identify_merge_commit_parents commit_parents
      = commit_parents.filter (fun parents => parents.length > 1)
    ∧ identify_merge_commit_parents [] = [] := by
  constructor
  · unfold identify_merge_commit_parents
    rw [identify_foldl_eq_filter]
    simp
  · rfl

/-! Claim C3 -/

/-- C3: with an empty feature list get_first_feature_commit returns the
no-divergence result, and with non-empty lists whose oldest entries have
different ids it raises the precondition AssertionError (never a best-effort
result). -/
theorem C3_empty_and_precondition (base feature : List Commit)
    (f_last b_last : Commit) :
    (feature = [] → get_first_feature_commit base feature = .ok none)
    ∧ (feature.getLast? = some f_last → base.getLast? = some b_last →
        f_last.id ≠ b_last.id →
        get_first_feature_commit base feature
          = .exn (.assertionError precondition_violation_msg)) := by
  constructor
  · intro h; subst h; rfl
  · intro hf hb hne
    have hbeq : (f_last.id == b_last.id) = false := by
      simp [hne]
    simp only [get_first_feature_commit, hf, hb, commitEq, hbeq]
    rfl

/-- C3 witness: concrete mismatched oldest commits raise the precondition
error. -/
theorem C3_empty_and_precondition_witness :
    get_first_feature_commit [Commit.mk "b" []] [Commit.mk "f" []]
      = .exn (.assertionError precondition_violation_msg) :=
  (C3_empty_and_precondition [Commit.mk "b" []] [Commit.mk "f" []]
    (Commit.mk "f" []) (Commit.mk "b" [])).2 (by decide) (by decide) (by decide)

/-! Claim C10 -/

/-- C10: with a non-empty feature list and an empty base list,
get_first_feature_commit raises an uncaught IndexError at the
base_commits[-1] access — neither the no-divergence result nor either
documented AssertionError. -/
theorem C10_empty_base_uncaught_index_error (feature : List Commit)
    (f_last : Commit) (hf : feature.getLast? = some f_last) :
    get_first_feature_commit [] feature = .exn .indexError
    ∧ (PyResult.exn PyErr.indexError ≠ (PyResult.ok none : PyResult (Option Commit)))
    ∧ PyErr.indexError ≠ PyErr.assertionError precondition_violation_msg
    ∧ PyErr.indexError ≠ PyErr.assertionError structural_error_msg := by
  refine ⟨?_, by simp, by simp, by simp⟩
  simp only [get_first_feature_commit, hf]
  rfl

/-- C10 witness: the IndexError at a concrete input. -/
theorem C10_empty_base_uncaught_index_error_witness :
    get_first_feature_commit [] [Commit.mk "f" []] = .exn .indexError :=
  (C10_empty_base_uncaught_index_error [Commit.mk "f" []] (Commit.mk "f" [])
    (by decide)).1

/-! Claim C2 -/

/-- Searching commits by Commit equality finds the same index as searching
the mapped id list by string equality. -/
theorem pyFindIdx_commit_map (tip : Commit) (l : List Commit) :
    pyFindIdx (fun c => commitEq c tip) l
      = pyFindIdx (fun s => s == tip.id) (l.map Commit.id) := by
  induction l with
  | nil => rfl
  | cons c cs ih =>
    simp only [pyFindIdx, List.map_cons]
    rw [ih]
    rfl

/-- String equality tests are symmetric. -/
theorem string_beq_comm (a b : String) : (a == b) = (b == a) := by
  by_cases h : a = b
  · subst h; rfl
  · have h1 : (a == b) = false := by simp [h]
    have h2 : (b == a) = false := by simp [Ne.symm h]
    rw [h1, h2]

/-- The source-side second-parent test agrees with the spec-side length and
index formulation. -/
theorem isSecondParentMerge_eq_spec (tip c : Commit) :
    isSecondParentMerge tip c
      = (decide (1 < c.parent_ids.length)
          && (c.parent_ids.get? 1 == some tip.id)) := by
  cases hp : c.parent_ids with
  | nil => simp [isSecondParentMerge, hp]
  | cons p rest =>
    cases rest with
    | nil => simp [isSecondParentMerge, hp]
    | cons q rest2 =>
      simp only [isSecondParentMerge, hp]
      have hq : ((p :: q :: rest2).get? 1) = some q := rfl
      have hlen : decide (1 < (p :: q :: rest2).length) = true := by simp
      rw [hq, hlen]
      simp only [Bool.true_and]
      have : ((some q == some tip.id) : Bool) = (q == tip.id) := rfl
      rw [this, string_beq_comm]

/-- C2: get_merge_commit behaves exactly as the spec words it — None on an
empty base list or an absent feature tip; otherwise the first explicit merge
of the tip among the more recent base commits, scanned oldest to newest, and
the tip itself if there is none (fast-forward case). -/
theorem C2_merge_point_matches_spec (feature_tip : Commit)
    (master_commits : List Commit) :
    get_merge_commit feature_tip master_commits
      = merge_point_spec feature_tip master_commits := by
  cases master_commits with
  | nil => rfl
  | cons m ms =>
    unfold get_merge_commit merge_point_spec
    simp only [List.isEmpty_cons, Bool.false_eq_true, if_false]
    rw [← pyFindIdx_commit_map]
    cases h : pyFindIdx (fun c => commitEq c feature_tip) (m :: ms) with
    | none => rfl
    | some i =>
      have hpred : isSecondParentMerge feature_tip
          = (fun c => decide (1 < c.parent_ids.length)
              && (c.parent_ids.get? 1 == some feature_tip.id)) :=
        funext (fun c => isSecondParentMerge_eq_spec feature_tip c)
      rw [hpred]

/-! Claim C4 -/

/-- Membership of a synthetic id-only commit in a commit list is membership
of the id among the mapped ids. -/
theorem containsCommit_synthetic (base : List Commit) (p : String) :
    containsCommit base (Commit.mk p []) = (base.map Commit.id).contains p := by
  induction base with
  | nil => rfl
  | cons b bs ih =>
    have hl : containsCommit (b :: bs) (Commit.mk p [])
        = (p == b.id || containsCommit bs (Commit.mk p [])) := rfl
    rw [hl, ih, List.map_cons, List.contains_cons]

/-- C4 counterexample: within the claim's domain (non-empty lists with a
shared oldest commit, feature tip absent from base), a parentless feature
commit reached during the scan makes get_first_feature_commit raise an
uncaught IndexError at commit.parent_ids[0] — it is neither skipped nor does
the scan reach the structural-consistency error after exhausting the list. -/
theorem C4_counterexample :
    get_first_feature_commit
      [Commit.mk "b" ["o"], Commit.mk "o" []]
      [Commit.mk "f" ["x"], Commit.mk "o" []]
      = .exn .indexError
    ∧ containsCommit [Commit.mk "b" ["o"], Commit.mk "o" []]
        (Commit.mk "f" ["x"]) = false
    ∧ PyResult.exn PyErr.indexError
        ≠ (PyResult.exn (PyErr.assertionError structural_error_msg)
            : PyResult (Option Commit))
    ∧ (PyResult.exn PyErr.indexError : PyResult (Option Commit)).isOk = false := by
  decide

/-- Characterization of the unmerged-branch loop with no side condition: the
scan stops at the first commit that either has its first-listed parent in
base or is parentless; a parentless stop is an IndexError, a matching stop
returns the commit, and exhaustion raises the structural AssertionError. -/
theorem unmergedScan_characterization (base : List Commit) :
    ∀ l, unmergedScan base l
      = match l.find? (scanStop base) with
        | some c =>
          if c.parent_ids.isEmpty = true then PyResult.exn PyErr.indexError
          else PyResult.ok (some c)
        | none => PyResult.exn (PyErr.assertionError structural_error_msg) := by
  intro l
  induction l with
  | nil => rfl
  | cons c cs ih =>
    cases hp : c.parent_ids with
    | nil =>
      have hpred : scanStop base c = true := by
        simp [scanStop, first_parent_in_base, hp]
      have hempty : c.parent_ids.isEmpty = true := by rw [hp]; rfl
      rw [List.find?_cons_of_pos _ hpred]
      simp [unmergedScan, hp, hempty]
    | cons p ps =>
      have hnotempty : c.parent_ids.isEmpty = false := by rw [hp]; rfl
      by_cases hcont : containsCommit base (Commit.mk p []) = true
      · have hfb : first_parent_in_base base c = true := by
          simp only [first_parent_in_base, hp, ← containsCommit_synthetic]
          exact hcont
        have hpred : scanStop base c = true := by
          simp only [scanStop]
          rw [hfb]
          rfl
        rw [List.find?_cons_of_pos _ hpred]
        simp [unmergedScan, hp, List.head?_cons, hcont, hnotempty]
      · have hcont2 : containsCommit base (Commit.mk p []) = false :=
          Bool.eq_false_iff.mpr hcont
        have hfb : first_parent_in_base base c = false := by
          simp only [first_parent_in_base, hp, ← containsCommit_synthetic]
          exact hcont2
        have hpred : ¬(scanStop base c = true) := by
          simp only [scanStop]
          rw [hfb, hnotempty]
          simp
        rw [List.find?_cons_of_neg _ hpred]
        have hstep : unmergedScan base (c :: cs) = unmergedScan base cs := by
          simp only [unmergedScan, hp, List.head?_cons, hcont2,
            Bool.false_eq_true, if_false]
        rw [hstep]
        exact ih

/-- C4 amended: under the shared-oldest precondition with the feature tip
absent from base, the scan (newest to oldest) returns the first feature
commit whose first-listed parent id is in the base list; reaching a
parentless feature commit first instead raises an uncaught IndexError; and
exhausting the list raises the structural AssertionError, an error value
distinct from the precondition error (and from the IndexError). -/
theorem C4_unmerged_scan_or_index_error (base feature : List Commit)
    (f_last b_last tip : Commit)
    (hf : feature.getLast? = some f_last) (hb : base.getLast? = some b_last)
    (hid : f_last.id = b_last.id) (htip : feature.head? = some tip)
    (habsent : containsCommit base tip = false) :
    (get_first_feature_commit base feature
      = match feature.find? (scanStop base) with
        | some c =>
          if c.parent_ids.isEmpty = true then PyResult.exn PyErr.indexError
          else PyResult.ok (some c)
        | none => PyResult.exn (PyErr.assertionError structural_error_msg))
    ∧ PyErr.assertionError structural_error_msg
        ≠ PyErr.assertionError precondition_violation_msg
    ∧ PyErr.indexError ≠ PyErr.assertionError structural_error_msg := by
  have hbeq : (f_last.id == b_last.id) = true := by simp [hid]
  refine ⟨?_, by decide, by decide⟩
  have h1 : get_first_feature_commit base feature = unmergedScan base feature := by
    simp only [get_first_feature_commit, hf, hb, commitEq, hbeq, Bool.not_true,
      Bool.false_eq_true, if_false, htip, habsent, Bool.not_false, if_true]
  rw [h1]
  exact unmergedScan_characterization base feature

/-- C4 witness: a feature branch whose commits all have parents but none
links to base exhausts the scan and raises the structural AssertionError. -/
theorem C4_unmerged_scan_or_index_error_witness :
    get_first_feature_commit
      [Commit.mk "b" ["o"], Commit.mk "o" ["z"]]
      [Commit.mk "f" ["w"], Commit.mk "o" ["z"]]
      = .exn (.assertionError structural_error_msg) := by
  have h := (C4_unmerged_scan_or_index_error
    [Commit.mk "b" ["o"], Commit.mk "o" ["z"]]
    [Commit.mk "f" ["w"], Commit.mk "o" ["z"]]
    (Commit.mk "o" ["z"]) (Commit.mk "o" ["z"]) (Commit.mk "f" ["w"])
    (by decide) (by decide) rfl (by decide) (by decide)).1
  exact h.trans (by decide)

/-! Claim C5 -/

/-- C5 counterexample: with a single shared commit as both lists, the claim's
premises hold (the tip is in base and no feature commit passes the
shared-parent chase), yet get_first_feature_commit raises an IndexError at
feature_commits[-2] instead of returning a second-oldest entry. -/
theorem C5_counterexample :
    get_first_feature_commit [Commit.mk "c" ["p"]] [Commit.mk "c" ["p"]]
      = .exn .indexError
    ∧ containsCommit [Commit.mk "c" ["p"]] (Commit.mk "c" ["p"]) = true
    ∧ find_feature_parent (Commit.mk "c" ["p"]) [Commit.mk "c" ["p"]] = .ok false
    ∧ (get_first_feature_commit [Commit.mk "c" ["p"]] [Commit.mk "c" ["p"]]).isOk
        = false := by
  decide

/-- A list whose getLast? is none is empty. -/
theorem eq_nil_of_getLast?_none {α : Type} (l : List α)
    (h : l.getLast? = none) : l = [] := by
  induction l with
  | nil => rfl
  | cons a as ih =>
    cases as with
    | nil => simp [List.getLast?] at h
    | cons b bs =>
      rw [List.getLast?_cons_cons] at h
      exact absurd (ih h) (by simp)

/-- When no element passes find_feature_parent, the merged-branch scan falls
through to the feature_commits[-2] fallback. -/
theorem mergedScan_all_false (base feature : List Commit) :
    ∀ l, (∀ c ∈ l, find_feature_parent c base = .ok false) →
      mergedScan base feature l
        = match feature.dropLast.getLast? with
          | some c => PyResult.ok (some c)
          | none => PyResult.exn PyErr.indexError := by
  intro l
  induction l with
  | nil => intro _; rfl
  | cons c cs ih =>
    intro h
    have hc := h c (List.mem_cons_self c cs)
    have hstep : mergedScan base feature (c :: cs) = mergedScan base feature cs := by
      simp only [mergedScan, hc]
    rw [hstep]
    exact ih (fun x hx => h x (List.mem_cons_of_mem c hx))

/-- C5 amended: under the shared-oldest precondition, with the feature tip in
the base list and no feature commit passing the shared-parent chase,
get_first_feature_commit returns the second-oldest feature entry whenever
the feature list has at least two entries; with exactly one entry the
fallback index is invalid and an uncaught IndexError is raised. -/
theorem C5_amended_fast_forward_index (base feature : List Commit)
    (f_last b_last tip : Commit)
    (hf : feature.getLast? = some f_last) (hb : base.getLast? = some b_last)
    (hid : f_last.id = b_last.id) (htip : feature.head? = some tip)
    (hpresent : containsCommit base tip = true)
    (hff : ∀ c ∈ feature, find_feature_parent c base = .ok false) :
    (∀ c, feature.dropLast.getLast? = some c →
        get_first_feature_commit base feature = .ok (some c))
    ∧ (feature.dropLast.getLast? = none →
        get_first_feature_commit base feature = .exn .indexError)
    ∧ (2 ≤ feature.length → ∃ c, feature.dropLast.getLast? = some c) := by
  have hbeq : (f_last.id == b_last.id) = true := by simp [hid]
  have hmain : get_first_feature_commit base feature
      = match feature.dropLast.getLast? with
        | some c => PyResult.ok (some c)
        | none => PyResult.exn PyErr.indexError := by
    have h1 : get_first_feature_commit base feature
        = mergedScan base feature feature := by
      simp only [get_first_feature_commit, hf, hb, commitEq, hbeq, Bool.not_true,
        Bool.false_eq_true, if_false, htip, hpresent]
    rw [h1]
    exact mergedScan_all_false base feature feature hff
  refine ⟨?_, ?_, ?_⟩
  · intro c hc; rw [hmain, hc]
  · intro hc; rw [hmain, hc]
  · intro hlen
    cases hcase : feature.dropLast.getLast? with
    | some c => exact ⟨c, rfl⟩
    | none =>
      exfalso
      have hnil := eq_nil_of_getLast?_none _ hcase
      have hlendl : feature.dropLast.length = feature.length - 1 :=
        List.length_dropLast feature
      rw [hnil] at hlendl
      simp only [List.length_nil] at hlendl
      omega

/-- C5 witness: the fast-forward fallback returns the second-oldest feature
entry on a two-entry feature list. -/
theorem C5_amended_fast_forward_index_witness :
    get_first_feature_commit
      [Commit.mk "b" ["y"], Commit.mk "a" ["z"]]
      [Commit.mk "b" ["y"], Commit.mk "a" ["z"]]
      = .ok (some (Commit.mk "b" ["y"])) :=
  (C5_amended_fast_forward_index
    [Commit.mk "b" ["y"], Commit.mk "a" ["z"]]
    [Commit.mk "b" ["y"], Commit.mk "a" ["z"]]
    (Commit.mk "a" ["z"]) (Commit.mk "a" ["z"]) (Commit.mk "b" ["y"])
    (by decide) (by decide) rfl (by decide) (by decide) (by decide)).1
    (Commit.mk "b" ["y"]) (by decide)

/-! Claim C7 -/

/-- A list whose head? is some a contains a. -/
theorem mem_of_head?_some {α : Type} (l : List α) (a : α)
    (h : l.head? = some a) : a ∈ l := by
  cases l with
  | nil => simp at h
  | cons x xs =>
    rw [List.head?_cons] at h
    injection h with h2
    rw [← h2]
    exact List.mem_cons_self x xs

/-- A successful chain walk only ever appends: the result extends the initial
accumulator. -/
theorem walkChain_ok_prefix (ac : List String) (cp : List (List String)) :
    ∀ fuel p init out, walkChain ac cp fuel p init = .ok out →
      ∃ suf, out = init ++ suf := by
  intro fuel
  induction fuel with
  | zero => intro p init out h; simp [walkChain] at h
  | succ n ih =>
    intro p init out h
    rw [walkChain] at h
    cases hidx : pyFindIdx (fun c => c == p) ac with
    | none =>
      simp only [hidx] at h
      injection h with h2
      exact ⟨[], by rw [← h2]; simp⟩
    | some idx =>
      simp only [hidx] at h
      cases hget : cp.get? idx with
      | none => simp only [hget] at h; exact PyResult.noConfusion h
      | some parents =>
        simp only [hget] at h
        cases hhd : parents.head? with
        | none => simp only [hhd] at h; exact PyResult.noConfusion h
        | some p0 =>
          simp only [hhd] at h
          obtain ⟨suf, hsuf⟩ := ih p0 (init ++ [p0]) out h
          exact ⟨p0 :: suf, by rw [hsuf, List.append_assoc]; rfl⟩

/-- C7 counterexample: on a newest-first two-commit snapshot with no merges
and no refs, the synthesized path does not contain the newest commit at all —
the walk starts at the last list entry (the oldest commit), not the newest. -/
theorem C7_counterexample :
    catch_empty_graph [] ["b", "a"] [["a"], ["x"]] = .ok [["x", "a"]]
    ∧ "b" ∉ ["x", "a"] := by
  decide

/-- C7 amended: on a non-empty snapshot with no previously produced paths,
whenever the degenerate fallback returns normally it synthesizes exactly one
non-empty path, whose final entry is the last element of the snapshot list
(the oldest commit of a newest-first snapshot), from which the walk started. -/
theorem C7_amended_single_path_from_last (all_commits : List String)
    (commit_parents : List (List String)) (ns : List (List String))
    (last_id : String) (hlast : all_commits.getLast? = some last_id)
    (h : catch_empty_graph [] all_commits commit_parents = .ok ns) :
    ∃ l, ns = [l] ∧ l ≠ [] ∧ l.getLast? = some last_id := by
  rw [catch_empty_graph] at h
  rw [if_pos (show ([] : List (List String)).isEmpty = true from rfl)] at h
  simp only [hlast] at h
  cases hw : walkChain all_commits commit_parents (all_commits.length + 2)
      last_id [last_id] with
  | ok cl =>
    simp only [hw] at h
    injection h with h2
    obtain ⟨suf, hsuf⟩ := walkChain_ok_prefix all_commits commit_parents _ _ _ _ hw
    refine ⟨cl.reverse, ?_, ?_, ?_⟩
    · rw [← h2]
      rfl
    · rw [hsuf]
      simp
    · rw [hsuf, List.getLast?_reverse]
      rfl
  | exn e => simp only [hw] at h; exact PyResult.noConfusion h
  | diverge => simp only [hw] at h; exact PyResult.noConfusion h

/-- C7 witness: the amended statement at a concrete snapshot. -/
theorem C7_amended_single_path_witness :
    ∃ l, [["x", "a"]] = [l] ∧ l ≠ [] ∧ l.getLast? = some "a" :=
  C7_amended_single_path_from_last ["b", "a"] [["a"], ["x"]] [["x", "a"]] "a"
    (by decide) (by decide)

/-! Claim C8 -/

/-- Every id in a successful chain walk comes from the initial accumulator or
from some parent list. -/
theorem walkChain_mem (ac : List String) (cp : List (List String)) :
    ∀ fuel p init out, walkChain ac cp fuel p init = .ok out →
      ∀ s ∈ out, s ∈ init ∨ s ∈ cp.flatten := by
  intro fuel
  induction fuel with
  | zero => intro p init out h; simp [walkChain] at h
  | succ n ih =>
    intro p init out h
    rw [walkChain] at h
    cases hidx : pyFindIdx (fun c => c == p) ac with
    | none =>
      simp only [hidx] at h
      injection h with h2
      subst h2
      intro s hs
      exact Or.inl hs
    | some idx =>
      simp only [hidx] at h
      cases hget : cp.get? idx with
      | none => simp only [hget] at h; exact PyResult.noConfusion h
      | some parents =>
        simp only [hget] at h
        cases hhd : parents.head? with
        | none => simp only [hhd] at h; exact PyResult.noConfusion h
        | some p0 =>
          simp only [hhd] at h
          intro s hs
          rcases ih p0 (init ++ [p0]) out h s hs with hmem | hmem
          · rcases List.mem_append.mp hmem with h1 | h1
            · exact Or.inl h1
            · have hs_p0 : s = p0 := List.mem_singleton.mp h1
              subst hs_p0
              refine Or.inr (List.mem_flatten.mpr ⟨parents, List.get?_mem hget, ?_⟩)
              exact mem_of_head?_some parents s hhd
          · exact Or.inr hmem

/-- Every id in a successful ref walk comes from the accumulator, the current
parent list, or some parent list of the snapshot. -/
theorem refWalk_mem (ac : List String) (cp : List (List String)) :
    ∀ fuel ps br out, refWalk ac cp fuel ps br = .ok out →
      ∀ s ∈ out, s ∈ br ∨ s ∈ ps ∨ s ∈ cp.flatten := by
  intro fuel
  induction fuel with
  | zero => intro ps br out h; simp [refWalk] at h
  | succ n ih =>
    intro ps br out h
    cases ps with
    | nil =>
      rw [refWalk] at h
      injection h with h2
      subst h2
      intro s hs
      exact Or.inl hs
    | cons parent_id rest =>
      rw [refWalk] at h
      cases hidx : pyFindIdx (fun c => c == parent_id) ac with
      | none =>
        simp only [hidx] at h
        injection h with h2
        subst h2
        intro s hs
        rcases List.mem_append.mp hs with h1 | h1
        · exact Or.inl h1
        · have : s = parent_id := List.mem_singleton.mp h1
          subst this
          exact Or.inr (Or.inl (List.mem_cons_self _ _))
      | some idx =>
        simp only [hidx] at h
        cases hget : cp.get? idx with
        | none => simp only [hget] at h; exact PyResult.noConfusion h
        | some parents2 =>
          simp only [hget] at h
          intro s hs
          rcases ih parents2 (br ++ [parent_id]) out h s hs with h1 | h1 | h1
          · rcases List.mem_append.mp h1 with h2 | h2
            · exact Or.inl h2
            · have : s = parent_id := List.mem_singleton.mp h2
              subst this
              exact Or.inr (Or.inl (List.mem_cons_self _ _))
          · exact Or.inr (Or.inr
              (List.mem_flatten.mpr ⟨parents2, List.get?_mem hget, h1⟩))
          · exact Or.inr (Or.inr h1)

/-- Every id in one merge-pair walk is in the snapshot, is the pair element
itself, or comes from some parent list. -/
theorem branchFromParent_mem (ac : List String) (cp : List (List String))
    (pair : List String) (pid : String) (out : List String)
    (h : branchFromParent ac cp pair pid = .ok out) :
    ∀ s ∈ out, s ∈ ac ∨ s = pid ∨ s ∈ cp.flatten := by
  rw [branchFromParent] at h
  cases hidx : pyFindIdx (fun p => p == pair) cp with
  | none => simp only [hidx] at h; exact PyResult.noConfusion h
  | some child_index =>
    simp only [hidx] at h
    cases hget : ac.get? child_index with
    | none => simp only [hget] at h; exact PyResult.noConfusion h
    | some child_id =>
      simp only [hget] at h
      intro s hs
      rcases walkChain_mem ac cp _ _ _ _ h s hs with h1 | h1
      · rcases List.mem_cons.mp h1 with h2 | h2
        · subst h2; exact Or.inl (List.get?_mem hget)
        · have : s = pid := List.mem_singleton.mp h2
          exact Or.inr (Or.inl this)
      · exact Or.inr (Or.inr h1)

/-- The per-pair loop of get_branch_commits preserves the snapshot-or-parent
invariant of the accumulated paths. -/
theorem branchesForPair_mem (ac : List String) (cp : List (List String))
    (pair : List String) :
    ∀ elems nodes out,
      (∀ a ∈ elems, a ∈ cp.flatten) →
      (∀ l ∈ nodes, ∀ s ∈ l, s ∈ ac ∨ s ∈ cp.flatten) →
      branchesForPair ac cp pair elems nodes = .ok out →
      ∀ l ∈ out, ∀ s ∈ l, s ∈ ac ∨ s ∈ cp.flatten := by
  intro elems
  induction elems with
  | nil =>
    intro nodes out _ hnodes h
    rw [branchesForPair] at h
    injection h with h2
    subst h2
    exact hnodes
  | cons a rest ih =>
    intro nodes out helems hnodes h
    rw [branchesForPair] at h
    cases hbp : branchFromParent ac cp pair a with
    | ok cl =>
      simp only [hbp] at h
      refine ih _ _ (fun x hx => helems x (List.mem_cons_of_mem a hx)) ?_ h
      intro l hl s hs
      rcases List.mem_append.mp hl with h1 | h1
      · exact hnodes l h1 s hs
      · have : l = cl.reverse := List.mem_singleton.mp h1
        subst this
        have hs2 : s ∈ cl := List.mem_reverse.mp hs
        rcases branchFromParent_mem ac cp pair a cl hbp s hs2 with h2 | h2 | h2
        · exact Or.inl h2
        · exact Or.inr (by rw [h2]; exact helems a (List.mem_cons_self a rest))
        · exact Or.inr h2
    | exn e => simp only [hbp] at h; exact PyResult.noConfusion h
    | diverge => simp only [hbp] at h; exact PyResult.noConfusion h

/-- The outer loop of get_branch_commits preserves the invariant across all
merge-parent pairs. -/
theorem branchesLoop_mem (ac : List String) (cp : List (List String)) :
    ∀ pairs nodes out,
      (∀ pr ∈ pairs, ∀ a ∈ pr, a ∈ cp.flatten) →
      (∀ l ∈ nodes, ∀ s ∈ l, s ∈ ac ∨ s ∈ cp.flatten) →
      branchesLoop ac cp pairs nodes = .ok out →
      ∀ l ∈ out, ∀ s ∈ l, s ∈ ac ∨ s ∈ cp.flatten := by
  intro pairs
  induction pairs with
  | nil =>
    intro nodes out _ hnodes h
    rw [branchesLoop] at h
    injection h with h2
    subst h2
    exact hnodes
  | cons pr rest ih =>
    intro nodes out hpairs hnodes h
    rw [branchesLoop] at h
    cases hfp : branchesForPair ac cp pr pr nodes with
    | ok nodes2 =>
      simp only [hfp] at h
      exact ih _ _ (fun q hq => hpairs q (List.mem_cons_of_mem pr hq))
        (branchesForPair_mem ac cp pr pr nodes nodes2
          (hpairs pr (List.mem_cons_self pr rest)) hnodes hfp) h
    | exn e => simp only [hfp] at h; exact PyResult.noConfusion h
    | diverge => simp only [hfp] at h; exact PyResult.noConfusion h

/-- The unmerged-ref loop preserves the snapshot-or-parent invariant. -/
theorem addUnmergedLoop_mem (ac : List String) (cp : List (List String))
    (fp : List String) :
    ∀ refs nodes out,
      (∀ l ∈ nodes, ∀ s ∈ l, s ∈ ac ∨ s ∈ cp.flatten) →
      addUnmergedLoop ac cp fp refs nodes = .ok out →
      ∀ l ∈ out, ∀ s ∈ l, s ∈ ac ∨ s ∈ cp.flatten := by
  intro refs
  induction refs with
  | nil =>
    intro nodes out hnodes h
    rw [addUnmergedLoop] at h
    injection h with h2
    subst h2
    exact hnodes
  | cons r rest ih =>
    intro nodes out hnodes h
    obtain ⟨rname, rcommit⟩ := r
    rw [addUnmergedLoop] at h
    by_cases hmem : fp.contains rcommit = true
    · rw [if_pos hmem] at h
      exact ih _ _ hnodes h
    · rw [if_neg hmem] at h
      cases hidx : pyFindIdx (fun c => c == rcommit) ac with
      | none =>
        simp only [hidx] at h
        exact ih _ _ hnodes h
      | some idx =>
        simp only [hidx] at h
        cases hget : cp.get? idx with
        | none => simp only [hget] at h; exact PyResult.noConfusion h
        | some parents =>
          simp only [hget] at h
          cases hrw : refWalk ac cp (ac.length + 2) parents [rcommit] with
          | ok br =>
            simp only [hrw] at h
            refine ih _ _ ?_ h
            intro l hl s hs
            rcases List.mem_append.mp hl with h1 | h1
            · exact hnodes l h1 s hs
            · have : l = br.reverse := List.mem_singleton.mp h1
              subst this
              have hs2 : s ∈ br := List.mem_reverse.mp hs
              rcases refWalk_mem ac cp _ _ _ _ hrw s hs2 with h2 | h2 | h2
              · have : s = rcommit := List.mem_singleton.mp h2
                subst this
                exact Or.inl (pyFindIdx_beq_mem _ _ _ hidx)
              · exact Or.inr (List.mem_flatten.mpr ⟨parents, List.get?_mem hget, h2⟩)
              · exact Or.inr h2
          | exn e => simp only [hrw] at h; exact PyResult.noConfusion h
          | diverge => simp only [hrw] at h; exact PyResult.noConfusion h

/-- The degenerate fallback preserves the snapshot-or-parent invariant. -/
theorem catch_empty_graph_mem (ac : List String) (cp : List (List String))
    (nodes out : List (List String))
    (hnodes : ∀ l ∈ nodes, ∀ s ∈ l, s ∈ ac ∨ s ∈ cp.flatten)
    (h : catch_empty_graph nodes ac cp = .ok out) :
    ∀ l ∈ out, ∀ s ∈ l, s ∈ ac ∨ s ∈ cp.flatten := by
  rw [catch_empty_graph] at h
  by_cases hempty : nodes.isEmpty = true
  · rw [if_pos hempty] at h
    cases hlast : ac.getLast? with
    | none => simp only [hlast] at h; exact PyResult.noConfusion h
    | some pid =>
      simp only [hlast] at h
      cases hw : walkChain ac cp (ac.length + 2) pid [pid] with
      | ok cl =>
        simp only [hw] at h
        injection h with h2
        subst h2
        intro l hl s hs
        rcases List.mem_append.mp hl with h1 | h1
        · exact hnodes l h1 s hs
        · have : l = cl.reverse := List.mem_singleton.mp h1
          subst this
          have hs2 : s ∈ cl := List.mem_reverse.mp hs
          rcases walkChain_mem ac cp _ _ _ _ hw s hs2 with h2 | h2
          · have hspid : s = pid := List.mem_singleton.mp h2
            rw [hspid]
            exact Or.inl (mem_of_getLast?_some ac pid hlast)
          · exact Or.inr h2
      | exn e => simp only [hw] at h; exact PyResult.noConfusion h
      | diverge => simp only [hw] at h; exact PyResult.noConfusion h
  · rw [if_neg hempty] at h
    injection h with h2
    subst h2
    exact hnodes

/-- C8 counterexample: the reconstruction output contains the id x, which is
neither in the input commit-id set nor the documented root sentinel — the
escaping parent id is appended to the path before the walk stops. -/
theorem C8_counterexample :
    process_commits ["b", "a"] [["a"], ["x"]] [] = .ok [["x", "a"]]
    ∧ "x" ∈ ["x", "a"] ∧ "x" ∉ ["b", "a"] ∧ "x" ≠ "None" := by
  decide

/-- C8 amended: every id appearing in any branch path produced by a normal
run of the reconstruction is either in the input commit-id set or occurs in
some input parent list (boundary parents outside the snapshot are appended
to paths before the walk stops). -/
theorem C8_amended_ids_from_snapshot_or_parents (all_commits : List String)
    (commit_parents : List (List String)) (refs : List (String × String))
    (ns : List (List String))
    (h : process_commits all_commits commit_parents refs = .ok ns) :
    ∀ l ∈ ns, ∀ s ∈ l, s ∈ all_commits ∨ s ∈ commit_parents.flatten := by
  rw [process_commits] at h
  cases h1 : get_branch_commits all_commits commit_parents
      (identify_merge_commit_parents commit_parents) with
  | ok nodes1 =>
    simp only [h1] at h
    cases h2 : add_unmerged_branches refs all_commits commit_parents nodes1 with
    | ok nodes2 =>
      simp only [h2] at h
      have hn1 : ∀ l ∈ nodes1, ∀ s ∈ l,
          s ∈ all_commits ∨ s ∈ commit_parents.flatten := by
        rw [get_branch_commits] at h1
        refine branchesLoop_mem _ _ _ _ _ ?_ (by intro l hl; simp at hl) h1
        intro pr hpr a ha
        rw [identify_merge_commit_parents, identify_foldl_eq_filter] at hpr
        simp only [List.nil_append] at hpr
        exact List.mem_flatten.mpr ⟨pr, (List.mem_filter.mp hpr).1, ha⟩
      have hn2 : ∀ l ∈ nodes2, ∀ s ∈ l,
          s ∈ all_commits ∨ s ∈ commit_parents.flatten := by
        rw [add_unmerged_branches] at h2
        exact addUnmergedLoop_mem _ _ _ _ _ _ hn1 h2
      exact catch_empty_graph_mem _ _ _ _ hn2 h
    | exn e => simp only [h2] at h; exact PyResult.noConfusion h
    | diverge => simp only [h2] at h; exact PyResult.noConfusion h
  | exn e => simp only [h1] at h; exact PyResult.noConfusion h
  | diverge => simp only [h1] at h; exact PyResult.noConfusion h

/-- C8 witness: the invariant at a concrete snapshot, specialized to the
boundary id x of the produced path. -/
theorem C8_amended_ids_witness :
    "x" ∈ ["b", "a"] ∨ "x" ∈ [["a"], ["x"]].flatten :=
  C8_amended_ids_from_snapshot_or_parents ["b", "a"] [["a"], ["x"]] []
    [["x", "a"]] (by decide) ["x", "a"] (by decide) "x" (by decide)

end Robota
